import Mathlib

set_option autoImplicit false

/-!
Shallow embedding of the perf_research cache/prefetch benchmark suite.

Machine integers (`uint64_t`) are modelled as `Nat` reduced modulo `2 ^ 64`
at each arithmetic step; arrays as total functions `Nat → Nat` (index to
value); the software prefetch hints (`PREFETCH_T0`/`T1`/`T2`/`NTA`,
i.e. `__builtin_prefetch`) as an operation that evaluates its address
operand and changes no architectural state; fallible allocation as a
`Bool`/`Option` parameter.  The two-phase ready/start rendezvous of the
dual-worker drivers is modelled as an explicit interleaving transition
system further below.
-/

/-- `2 ^ 64`, the modulus of `uint64_t` arithmetic. -/
def U64 : Nat := 18446744073709551616

/-- Wrap-around 64-bit addition (`uint64_t` `sum += x`). -/
def add64 (a b : Nat) : Nat := (a + b) % U64

/-- Model of a software prefetch hint (`__builtin_prefetch`): the address
operand is evaluated, the hint itself has no effect on program state. -/
def prefetchHint (_addr : Nat) : Unit := ()

/-- `PREFETCH_DISTANCE` of sequential_prefetch.c / prefetch_hints.c. -/
def PREFETCH_DISTANCE : Nat := 16

/-- `PREFETCH_AHEAD` of random_prefetch.c. -/
def PREFETCH_AHEAD : Nat := 8

/-- `sequential_no_prefetch` (sequential_prefetch.c): `ITERATIONS` passes of
`sum += array[i]` over `elements` entries, one running 64-bit sum; the
function never writes the array, so the final array state is the input
array.  The result pairs the returned checksum with the final array. -/
def sequential_no_prefetch (array : Nat → Nat) (elements iters : Nat) :
    Nat × (Nat → Nat) :=
  ((List.range iters).foldl
    (fun sum _ =>
      (List.range elements).foldl (fun sum i => add64 sum (array i)) sum) 0,
   array)

/-- `sequential_with_prefetch` (sequential_prefetch.c): same loop with
`PREFETCH_T0(&array[i + PREFETCH_DISTANCE])` issued before each load. -/
def sequential_with_prefetch (array : Nat → Nat) (elements iters : Nat) :
    Nat × (Nat → Nat) :=
  ((List.range iters).foldl
    (fun sum _ =>
      (List.range elements).foldl
        (fun sum i =>
          let _ := prefetchHint (i + PREFETCH_DISTANCE)
          add64 sum (array i)) sum) 0,
   array)

/-- `random_no_prefetch` (random_prefetch.c): `sum += array[indices[i]]` for
`i < ACCESS_COUNT`; never writes the array. -/
def random_no_prefetch (array indices : Nat → Nat) (count : Nat) :
    Nat × (Nat → Nat) :=
  ((List.range count).foldl (fun sum i => add64 sum (array (indices i))) 0,
   array)

/-- `random_with_prefetch` (random_prefetch.c): same loop, issuing
`PREFETCH_T0(&array[indices[i + PREFETCH_AHEAD]])` first (the prefetch's
address computation reads `indices[i + PREFETCH_AHEAD]`). -/
def random_with_prefetch (array indices : Nat → Nat) (count : Nat) :
    Nat × (Nat → Nat) :=
  ((List.range count).foldl
    (fun sum i =>
      let _ := prefetchHint (indices (i + PREFETCH_AHEAD))
      add64 sum (array (indices i)) ) 0,
   array)

/-- C2: for every initial array contents (and index buffer), each
prefetch-enabled variant returns the same checksum and the same final array
state as its no-prefetch counterpart: the prefetch hint never changes
program results. -/
theorem prefetch_variants_equal (array indices : Nat → Nat)
    (elements iters count : Nat) :
    sequential_with_prefetch array elements iters
        = sequential_no_prefetch array elements iters ∧
    random_with_prefetch array indices count
        = random_no_prefetch array indices count :=
  ⟨rfl, rfl⟩

/-! ## Cache-layout primitives (prefetch_utils.h, false_sharing.c) -/

/-- `CACHE_LINE_SIZE` (prefetch_utils.h). -/
def CACHE_LINE_SIZE : Nat := 64

/-- `NUM_THREADS` (false_sharing.c). -/
def NUM_THREADS : Nat := 4

/-- `sizeof(uint64_t)`. -/
def sizeof_uint64 : Nat := 8

/-- Byte size of one element of `good_counters.per_thread`
(false_sharing.c): a `volatile uint64_t counter` followed by
`char padding[CACHE_LINE_SIZE - sizeof(uint64_t)]`. -/
def good_counters_stride : Nat :=
  sizeof_uint64 + (CACHE_LINE_SIZE - sizeof_uint64)

/-- Byte address of `per_thread[i].counter` for a `good_counters` structure
placed at byte address `base` (the counter sits at offset 0 of its
element). -/
def good_counter_addr (base i : Nat) : Nat := base + i * good_counters_stride

/-- Cache-line index of a byte address. -/
def cacheLineOf (addr : Nat) : Nat := addr / CACHE_LINE_SIZE

/-- C4: the padded per-element stride is at least one cache line, and for a
cache-line-aligned `good_counters` structure, distinct elements'
counters lie in distinct cache lines. -/
theorem good_counters_padded_disjoint :
    CACHE_LINE_SIZE ≤ good_counters_stride ∧
    ∀ base i j : Nat, base % CACHE_LINE_SIZE = 0 →
      i < NUM_THREADS → j < NUM_THREADS → i ≠ j →
      cacheLineOf (good_counter_addr base i)
        ≠ cacheLineOf (good_counter_addr base j) := by
  constructor
  · decide
  · intro base i j _ _ _ hij
    have hline : ∀ k : Nat, cacheLineOf (good_counter_addr base k)
        = base / CACHE_LINE_SIZE + k := by
      intro k
      show (base + k * good_counters_stride) / CACHE_LINE_SIZE
          = base / CACHE_LINE_SIZE + k
      have hstride : good_counters_stride = 64 := by decide
      have hcl : CACHE_LINE_SIZE = 64 := by decide
      rw [hstride, hcl]
      exact Nat.add_mul_div_right base k (by norm_num)
    rw [hline i, hline j]
    omega

/-- Witness for C4 at `base = 0`, `i = 0`, `j = 1`. -/
theorem good_counters_padded_disjoint_witness :
    cacheLineOf (good_counter_addr 0 0) ≠ cacheLineOf (good_counter_addr 0 1) :=
  good_counters_padded_disjoint.2 0 0 1 (by decide) (by decide) (by decide)
    (by decide)

/-! ## CPU binding and worker error handling (cpu_bindind.h,
latency_hiding.c, dcache_contention.c) -/

/-- Outcome of one worker thread's run: whether it wrote its timed result. -/
inductive WorkerOutcome where
  | recorded
  | aborted
deriving DecidableEq, Repr

/-- `bind_to_cpu` (cpu_bindind.h): returns `0` when `sched_setaffinity`
succeeds and `-1` when the OS call is refused (out-of-range CPU id or
insufficient privilege), after printing a diagnostic with `perror`. -/
def bind_to_cpu (os_accepts : Bool) : Int := if os_accepts then 0 else -1

/-- `worker_thread` of latency_hiding.c: calls `bind_to_cpu(targ->cpu_id)`
and DISCARDS the return value, then signals ready, spins on the start flag,
runs its workload and records `elapsed_time` unconditionally. -/
def latency_hiding_worker (os_accepts : Bool) : WorkerOutcome :=
  let _ := bind_to_cpu os_accepts
  WorkerOutcome.recorded

/-- `worker_thread` of dcache_contention.c: returns early, recording no
timed result, when `bind_to_cpu(targ->cpu_id) != 0`. -/
def dcache_worker (os_accepts : Bool) : WorkerOutcome :=
  if bind_to_cpu os_accepts ≠ 0 then WorkerOutcome.aborted
  else WorkerOutcome.recorded

/-- C3 (code bug): when `bind_to_cpu` fails (returns `-1`), the
latency_hiding worker still runs and records a timed result instead of
aborting its measurement; only the dcache_contention worker aborts as the
specification requires. -/
theorem latency_worker_ignores_bind_failure :
    bind_to_cpu false = -1 ∧
    latency_hiding_worker false = WorkerOutcome.recorded ∧
    dcache_worker false = WorkerOutcome.aborted := by
  refine ⟨rfl, rfl, ?_⟩
  decide

/-! ## Arena allocation failure handling (latency_hiding.c,
random_prefetch.c, combined_test.c) -/

/-- Behavior of a program right after its arena allocation. -/
inductive AllocOutcome where
  | proceeds
  | exitsWithDiagnostic (code : Nat)
  | undefinedBehavior
deriving DecidableEq, Repr

/-- `main` of latency_hiding.c:
`if (!large_array) { perror("Memory allocation failed"); return 1; }`. -/
def latency_hiding_main_alloc (alloc_ok : Bool) : AllocOutcome :=
  if alloc_ok then AllocOutcome.proceeds
  else AllocOutcome.exitsWithDiagnostic 1

/-- `main` of random_prefetch.c:
`if (!array || !indices) { perror(...); return 1; }`. -/
def random_prefetch_main_alloc (array_ok indices_ok : Bool) : AllocOutcome :=
  if !array_ok || !indices_ok then AllocOutcome.exitsWithDiagnostic 1
  else AllocOutcome.proceeds

/-- `run_single` of combined_test.c:
`array = aligned_alloc(...); memset(array, 0x55, ARRAY_SIZE);` with no NULL
check — a failed allocation flows straight into `memset(NULL, ...)`, which
is undefined behavior (a crash), not a detected, reported exit. -/
def combined_run_single_alloc (alloc_ok : Bool) : AllocOutcome :=
  if alloc_ok then AllocOutcome.proceeds
  else AllocOutcome.undefinedBehavior

/-- `run_dual` of combined_test.c: allocates `array1` and `array2`, again
with no NULL check before the two `memset` calls. -/
def combined_run_dual_alloc (alloc1_ok alloc2_ok : Bool) : AllocOutcome :=
  if alloc1_ok && alloc2_ok then AllocOutcome.proceeds
  else AllocOutcome.undefinedBehavior

/-- C8 (code bug): combined_test.c's `run_single`/`run_dual` do not detect
allocation failure at all — a NULL arena reaches `memset` (undefined
behavior) with no diagnostic and no controlled nonzero exit — while
latency_hiding.c and random_prefetch.c detect it and exit 1 as claimed. -/
theorem combined_test_misses_alloc_check :
    combined_run_single_alloc false = AllocOutcome.undefinedBehavior ∧
    combined_run_single_alloc false ≠ AllocOutcome.exitsWithDiagnostic 1 ∧
    combined_run_dual_alloc true false = AllocOutcome.undefinedBehavior ∧
    latency_hiding_main_alloc false = AllocOutcome.exitsWithDiagnostic 1 ∧
    random_prefetch_main_alloc false true = AllocOutcome.exitsWithDiagnostic 1 := by
  refine ⟨rfl, ?_, rfl, rfl, rfl⟩
  decide

/-! ## Index-buffer bounds of random_prefetch.c -/

/-- `ACCESS_COUNT` (random_prefetch.c). -/
def ACCESS_COUNT : Nat := 10000000

/-- Allocated length, in entries, of the `indices` buffer in
random_prefetch.c `main`:
`malloc((ACCESS_COUNT + PREFETCH_AHEAD + 1) * sizeof(size_t))`. -/
def indices_len : Nat := ACCESS_COUNT + PREFETCH_AHEAD + 1

/-- Index-buffer positions read by iteration `i` of
`random_with_multi_prefetch`: `indices[i + 4]`, `indices[i + 16]`,
`indices[i]`. -/
def multi_prefetch_reads (i : Nat) : List Nat := [i + 4, i + 16, i]

/-- The claimed safety property: every index-buffer read of
`random_with_multi_prefetch` stays within the allocated length. -/
def multi_prefetch_in_bounds : Prop :=
  ∀ i, i < ACCESS_COUNT → ∀ r ∈ multi_prefetch_reads i, r < indices_len

/-- C9 (code bug): `random_with_multi_prefetch` reads `indices[i + 16]`
while only `ACCESS_COUNT + PREFETCH_AHEAD + 1 = ACCESS_COUNT + 9` entries
are allocated, so every iteration `i ≥ ACCESS_COUNT - 7` reads past the end
of the buffer; `i = 9999999` reads entry `10000015` of a
`10000009`-entry buffer. -/
theorem random_with_multi_prefetch_oob :
    ¬ multi_prefetch_in_bounds ∧
    9999999 < ACCESS_COUNT ∧ indices_len ≤ 9999999 + 16 := by
  refine ⟨fun h => ?_, by decide, by decide⟩
  have hmem : 9999999 + 16 ∈ multi_prefetch_reads 9999999 := by
    simp [multi_prefetch_reads]
  have hlt := h 9999999 (by decide) (9999999 + 16) hmem
  exact absurd hlt (by decide)

/-! ## CLI mode dispatch (one `main` per experiment program) -/

/-- Observable outcome of a program's `main` for a given mode argument:
process exit code, whether a usage line was printed to standard output, and
whether any experiment ran. -/
structure CliOut where
  exitCode : Nat
  printedUsage : Bool
  ranWorkload : Bool
deriving DecidableEq, Repr

/-- The `strcmp` if-else chain shared by every mode-parsing `main`: the
first matching mode string runs its experiment(s) and returns 0; the final
`else` prints the usage line and returns 1. -/
def mode_dispatch : List String → String → CliOut
  | [], _ => ⟨1, true, false⟩
  | m :: rest, mode =>
      if mode = m then ⟨0, false, true⟩ else mode_dispatch rest mode

theorem mode_dispatch_mem (modes : List String) (mode : String) :
    (mode ∈ modes → mode_dispatch modes mode = ⟨0, false, true⟩) ∧
    (mode ∉ modes → mode_dispatch modes mode = ⟨1, true, false⟩) := by
  induction modes with
  | nil => exact ⟨fun h => absurd h (List.not_mem_nil mode), fun _ => rfl⟩
  | cons m rest ih =>
    constructor
    · intro h
      by_cases hm : mode = m
      · simp [mode_dispatch, hm]
      · have hr : mode ∈ rest := by
          rcases List.mem_cons.mp h with h' | h'
          · exact absurd h' hm
          · exact h'
        simp [mode_dispatch, hm, ih.1 hr]
    · intro h
      have hm : mode ≠ m := fun e => h (by simp [e])
      have hr : mode ∉ rest := fun e => h (List.mem_cons_of_mem m e)
      simp [mode_dispatch, hm, ih.2 hr]

/-- `main` of sequential_prefetch.c (after the arena allocation check):
modes `--no-prefetch`, `--prefetch`, `--prefetch-nta`, `--all`. -/
def sequential_prefetch_main (alloc_ok : Bool) (mode : String) : CliOut :=
  if !alloc_ok then ⟨1, false, false⟩
  else mode_dispatch ["--no-prefetch", "--prefetch", "--prefetch-nta", "--all"] mode

/-- `main` of random_prefetch.c: modes `--no-prefetch`, `--prefetch`,
`--multi-prefetch`, `--all`. -/
def random_prefetch_main (alloc_ok : Bool) (mode : String) : CliOut :=
  if !alloc_ok then ⟨1, false, false⟩
  else mode_dispatch ["--no-prefetch", "--prefetch", "--multi-prefetch", "--all"] mode

/-- `main` of matrix_prefetch.c: modes `--naive`, `--prefetch`,
`--blocked`, `--blocked-prefetch`, `--all`. -/
def matrix_prefetch_main (alloc_ok : Bool) (mode : String) : CliOut :=
  if !alloc_ok then ⟨1, false, false⟩
  else
    mode_dispatch ["--naive", "--prefetch", "--blocked", "--blocked-prefetch", "--all"]
      mode

/-- `main` of false_sharing.c (no arena allocation): modes `--bad`,
`--good`, `--all`. -/
def false_sharing_main (mode : String) : CliOut :=
  mode_dispatch ["--bad", "--good", "--all"] mode

/-- `main` of dcache_contention.c: modes `--same-core`, `--diff-core`,
`--single`, `--all`. -/
def dcache_contention_main (alloc_ok : Bool) (mode : String) : CliOut :=
  if !alloc_ok then ⟨1, false, false⟩
  else mode_dispatch ["--same-core", "--diff-core", "--single", "--all"] mode

/-- `main` of icache_contention.c (no arena allocation): modes
`--same-core`, `--diff-core`, `--single`, `--all`. -/
def icache_contention_main (mode : String) : CliOut :=
  mode_dispatch ["--same-core", "--diff-core", "--single", "--all"] mode

/-- `main` of latency_hiding.c: modes `--same-core`, `--diff-core`,
`--single`, `--all`. -/
def latency_hiding_main (alloc_ok : Bool) (mode : String) : CliOut :=
  if !alloc_ok then ⟨1, false, false⟩
  else mode_dispatch ["--same-core", "--diff-core", "--single", "--all"] mode

/-- `main` of shared_cache.c (static array, no allocation): modes
`--same-core`, `--diff-core`, `--single`, `--all`. -/
def shared_cache_main (mode : String) : CliOut :=
  mode_dispatch ["--same-core", "--diff-core", "--single", "--all"] mode

/-- `main` of prefetch_hints.c: after the allocation check it never
inspects `argv` — every invocation runs all five tests and returns 0. -/
def prefetch_hints_main (alloc_ok : Bool) (_mode : String) : CliOut :=
  if !alloc_ok then ⟨1, false, false⟩ else ⟨0, false, true⟩

/-- `main` of combined_test.c: never inspects `argv`, always runs all six
configurations and returns 0. -/
def combined_test_main (_mode : String) : CliOut := ⟨0, false, true⟩

/-- `main` of prefetch_distance.c: after the allocation check it never
inspects `argv`. -/
def prefetch_distance_main (alloc_ok : Bool) (_mode : String) : CliOut :=
  if !alloc_ok then ⟨1, false, false⟩ else ⟨0, false, true⟩

/-- C5 counterexample: prefetch_hints.c given the unrecognized mode
`--bogus` exits 0, prints no usage line, and runs its workloads anyway —
refuting the claim for "every experiment program". -/
theorem prefetch_hints_accepts_any_mode :
    prefetch_hints_main true "--bogus" = ⟨0, false, true⟩ ∧
    combined_test_main "--bogus" = ⟨0, false, true⟩ := ⟨rfl, rfl⟩

/-- `prog` handles exactly the mode strings in `modes`: a recognized mode
runs the experiments and exits 0, an unrecognized one prints the usage line
and exits 1. -/
def parses_modes (prog : String → CliOut) (modes : List String) : Prop :=
  ∀ mode, (mode ∈ modes → prog mode = ⟨0, false, true⟩) ∧
    (mode ∉ modes → prog mode = ⟨1, true, false⟩)

/-- C5 amended: every mode-parsing experiment program (assuming its arena
allocation succeeds) exits 0 on its recognized modes and prints usage and
exits 1 on any other mode; prefetch_hints.c, combined_test.c and
prefetch_distance.c take no mode argument and run everything, exiting 0,
for any argument. -/
theorem cli_mode_dispatch_correct :
    parses_modes (sequential_prefetch_main true)
      ["--no-prefetch", "--prefetch", "--prefetch-nta", "--all"] ∧
    parses_modes (random_prefetch_main true)
      ["--no-prefetch", "--prefetch", "--multi-prefetch", "--all"] ∧
    parses_modes (matrix_prefetch_main true)
      ["--naive", "--prefetch", "--blocked", "--blocked-prefetch", "--all"] ∧
    parses_modes false_sharing_main ["--bad", "--good", "--all"] ∧
    parses_modes (dcache_contention_main true)
      ["--same-core", "--diff-core", "--single", "--all"] ∧
    parses_modes icache_contention_main
      ["--same-core", "--diff-core", "--single", "--all"] ∧
    parses_modes (latency_hiding_main true)
      ["--same-core", "--diff-core", "--single", "--all"] ∧
    parses_modes shared_cache_main
      ["--same-core", "--diff-core", "--single", "--all"] ∧
    (∀ mode, prefetch_hints_main true mode = ⟨0, false, true⟩) ∧
    (∀ mode, combined_test_main mode = ⟨0, false, true⟩) ∧
    (∀ mode, prefetch_distance_main true mode = ⟨0, false, true⟩) := by
  refine ⟨?_, ?_, ?_, ?_, ?_, ?_, ?_, ?_,
    fun _ => rfl, fun _ => rfl, fun _ => rfl⟩ <;>
    exact fun mode => mode_dispatch_mem _ mode

/-- Witness for C5 amended: `--all` is accepted and `--frobnicate` is
rejected with usage and exit code 1. -/
theorem cli_mode_dispatch_correct_witness :
    sequential_prefetch_main true "--all" = ⟨0, false, true⟩ ∧
    false_sharing_main "--frobnicate" = ⟨1, true, false⟩ :=
  ⟨(cli_mode_dispatch_correct.1 "--all").1 (by decide),
   (cli_mode_dispatch_correct.2.2.2.1 "--frobnicate").2 (by decide)⟩

/-! ## Closed form of the sequential scan checksum (prefetch_hints.c,
sequential_prefetch.c) -/

theorem foldl_add64_eq (f : Nat → Nat) :
    ∀ n s : Nat, s < U64 →
      (List.range n).foldl (fun sum i => add64 sum (f i)) s
        = (s + ∑ i ∈ Finset.range n, f i) % U64 := by
  intro n
  induction n with
  | zero =>
    intro s hs
    simp [Nat.mod_eq_of_lt hs]
  | succ n ih =>
    intro s hs
    rw [List.range_succ, List.foldl_append, List.foldl_cons, List.foldl_nil,
      ih s hs]
    show add64 _ _ = _
    rw [add64, Nat.mod_add_mod, Finset.sum_range_succ, ← Nat.add_assoc]

theorem seq_scan_fold (array : Nat → Nat) (elements : Nat) :
    ∀ iters : Nat,
      (List.range iters).foldl
        (fun sum _ =>
          (List.range elements).foldl (fun sum i => add64 sum (array i)) sum) 0
        = (iters * ∑ i ∈ Finset.range elements, array i) % U64 := by
  intro iters
  induction iters with
  | zero => simp
  | succ it ih =>
    rw [List.range_succ, List.foldl_append, List.foldl_cons, List.foldl_nil, ih]
    have hlt : (it * ∑ i ∈ Finset.range elements, array i) % U64 < U64 :=
      Nat.mod_lt _ (by decide)
    rw [foldl_add64_eq array elements _ hlt, Nat.mod_add_mod, Nat.succ_mul]

/-- The checksum of `sequential_no_prefetch` is the 64-bit reduction of
`iters` times the element sum. -/
theorem sequential_no_prefetch_checksum (array : Nat → Nat)
    (elements iters : Nat) :
    (sequential_no_prefetch array elements iters).1
      = (iters * ∑ i ∈ Finset.range elements, array i) % U64 :=
  seq_scan_fold array elements iters

/-- `ARRAY_SIZE` of prefetch_hints.c and sequential_prefetch.c: 128 MB. -/
def ARRAY_SIZE_128MB : Nat := 128 * 1024 * 1024

/-- Element count of the 128 MB scan array:
`ARRAY_SIZE / sizeof(uint64_t)`. -/
def scan_elements : Nat := ARRAY_SIZE_128MB / sizeof_uint64

/-- `ITERATIONS` of prefetch_hints.c. -/
def ITERATIONS_hints : Nat := 3

/-- `ITERATIONS` of sequential_prefetch.c. -/
def ITERATIONS_seq : Nat := 5

/-- The scan array as initialized in both `main`s: `array[i] = i`. -/
def init_index_array : Nat → Nat := fun i => i

/-- Checksum returned by `no_prefetch` (prefetch_hints.c) on the
index-initialized 128 MB array: three nested passes of `sum += array[i]`. -/
def no_prefetch_result : Nat :=
  (sequential_no_prefetch init_index_array scan_elements ITERATIONS_hints).1

/-- Checksum returned by `sequential_no_prefetch` (sequential_prefetch.c)
on the index-initialized 128 MB array: five passes. -/
def sequential_no_prefetch_result : Nat :=
  (sequential_no_prefetch init_index_array scan_elements ITERATIONS_seq).1

/-- Closed-form sum of `0..n-1`. -/
def gauss (n : Nat) : Nat := n * (n - 1) / 2

theorem sum_range_init_index (n : Nat) :
    (∑ i ∈ Finset.range n, init_index_array i) = gauss n :=
  Finset.sum_range_id n

/-- C6 counterexample: the scan cited by the claim loops `ITERATIONS = 3`
times over the array, so its checksum is three times the closed-form sum of
`0..elements-1`, not the closed-form sum itself. -/
theorem no_prefetch_result_ne_closed_form :
    no_prefetch_result ≠ gauss scan_elements := by
  have h1 : no_prefetch_result
      = (ITERATIONS_hints * gauss scan_elements) % U64 := by
    have h := sequential_no_prefetch_checksum init_index_array scan_elements
      ITERATIONS_hints
    rwa [sum_range_init_index] at h
  rw [h1]
  decide

/-- C6 amended: on the index-initialized 128 MB array the scans return
`ITERATIONS` times the closed-form sum (3 times for prefetch_hints.c,
5 times for sequential_prefetch.c; no 64-bit overflow occurs), and a
single-pass scan returns exactly the closed-form sum. -/
theorem scan_returns_iterations_times_closed_form :
    no_prefetch_result = ITERATIONS_hints * gauss scan_elements ∧
    sequential_no_prefetch_result = ITERATIONS_seq * gauss scan_elements ∧
    ∀ n : Nat, n * (n - 1) / 2 < U64 →
      (sequential_no_prefetch (fun i => i) n 1).1 = gauss n := by
  refine ⟨?_, ?_, ?_⟩
  · have h := sequential_no_prefetch_checksum init_index_array scan_elements
      ITERATIONS_hints
    rw [sum_range_init_index] at h
    show (sequential_no_prefetch init_index_array scan_elements
      ITERATIONS_hints).1 = _
    rw [h]
    exact Nat.mod_eq_of_lt (by decide)
  · have h := sequential_no_prefetch_checksum init_index_array scan_elements
      ITERATIONS_seq
    rw [sum_range_init_index] at h
    show (sequential_no_prefetch init_index_array scan_elements
      ITERATIONS_seq).1 = _
    rw [h]
    exact Nat.mod_eq_of_lt (by decide)
  · intro n hn
    have h := sequential_no_prefetch_checksum (fun i => i) n 1
    have hsum : (∑ i ∈ Finset.range n, i) = gauss n := Finset.sum_range_id n
    rw [hsum, Nat.one_mul] at h
    rw [h]
    exact Nat.mod_eq_of_lt hn

/-- Witness for C6 amended at `n = 10`: a single pass over `array[i] = i`
returns `45`. -/
theorem scan_closed_form_witness :
    (sequential_no_prefetch (fun i => i) 10 1).1 = gauss 10 :=
  scan_returns_iterations_times_closed_form.2.2 10 (by decide)

/-! ## Deterministic random-index generation (random_prefetch.c) -/

/-- One step of the linear congruential generator in
`generate_random_indices`: `seed = seed * 1103515245 + 12345` in
`uint64_t` arithmetic. -/
def lcgStep (seed : Nat) : Nat := (seed * 1103515245 + 12345) % U64

/-- The fill loop of `generate_random_indices`: with `remaining` entries
left to write, the current `seed`, and the next buffer position `i`, writes
`indices[i] = (seed >> 16) % elements` into the buffer `buf` and
continues. -/
def genFrom (elements : Nat) : Nat → Nat → Nat → (Nat → Nat) → (Nat → Nat)
  | 0, _, _, buf => buf
  | r + 1, seed, i, buf =>
      genFrom elements r (lcgStep seed) (i + 1)
        (Function.update buf i ((lcgStep seed >>> 16) % elements))

theorem genFrom_zero (elements seed i : Nat) (buf : Nat → Nat) :
    genFrom elements 0 seed i buf = buf := rfl

theorem genFrom_succ (elements seed i r : Nat) (buf : Nat → Nat) :
    genFrom elements (r + 1) seed i buf
      = genFrom elements r (lcgStep seed) (i + 1)
          (Function.update buf i ((lcgStep seed >>> 16) % elements)) := rfl

/-- `generate_random_indices` (random_prefetch.c): fills the first `count`
entries of the index buffer from the fixed seed `12345`. -/
def generate_random_indices (elements count : Nat) (buf : Nat → Nat) :
    Nat → Nat :=
  genFrom elements count 12345 0 buf

theorem genFrom_lt (elements : Nat) :
    ∀ (r seed i : Nat) (buf : Nat → Nat) (j : Nat), j < i →
      genFrom elements r seed i buf j = buf j := by
  intro r
  induction r with
  | zero => intros; rfl
  | succ r ih =>
    intro seed i buf j hj
    rw [genFrom_succ, ih _ _ _ j (Nat.lt_succ_of_lt hj)]
    exact Function.update_noteq (Nat.ne_of_lt hj) _ buf

theorem genFrom_agree (elements : Nat) :
    ∀ (r seed i : Nat) (b1 b2 : Nat → Nat) (j : Nat), i ≤ j → j < i + r →
      genFrom elements r seed i b1 j = genFrom elements r seed i b2 j := by
  intro r
  induction r with
  | zero => intro _ i _ _ j h1 h2; exact absurd h2 (by omega)
  | succ r ih =>
    intro seed i b1 b2 j h1 h2
    rw [genFrom_succ, genFrom_succ]
    by_cases hj : j = i
    · subst hj
      rw [genFrom_lt elements r _ _ _ j (Nat.lt_succ_self j),
        genFrom_lt elements r _ _ _ j (Nat.lt_succ_self j),
        Function.update_same, Function.update_same]
    · exact ih _ (i + 1) _ _ j (by omega) (by omega)

theorem sum_reads_congr (array idx1 idx2 : Nat → Nat) :
    ∀ count s : Nat, (∀ i, i < count → idx1 i = idx2 i) →
      (List.range count).foldl (fun sum i => add64 sum (array (idx1 i))) s
        = (List.range count).foldl (fun sum i => add64 sum (array (idx2 i))) s := by
  intro count
  induction count with
  | zero => intros; rfl
  | succ c ih =>
    intro s h
    rw [List.range_succ, List.foldl_append, List.foldl_append,
      List.foldl_cons, List.foldl_cons, List.foldl_nil, List.foldl_nil,
      ih s (fun i hi => h i (Nat.lt_succ_of_lt hi)),
      h c (Nat.lt_succ_self c)]

/-- C7: the index sequence produced by `generate_random_indices` depends
only on the fixed seed and the element count — two invocations on any two
initial buffer states agree on every filled entry — and hence the
random-access workload returns bit-identical checksums across two runs on
identically initialized arrays. -/
theorem random_indices_deterministic (elements count acc : Nat)
    (b1 b2 array : Nat → Nat) (hacc : acc ≤ count) :
    (∀ j, j < count →
      generate_random_indices elements count b1 j
        = generate_random_indices elements count b2 j) ∧
    random_no_prefetch array (generate_random_indices elements count b1) acc
      = random_no_prefetch array (generate_random_indices elements count b2) acc := by
  have hagree : ∀ j, j < count →
      generate_random_indices elements count b1 j
        = generate_random_indices elements count b2 j := fun j hj =>
    genFrom_agree elements count 12345 0 b1 b2 j (Nat.zero_le j) (by omega)
  refine ⟨hagree, ?_⟩
  exact congrArg (fun s => (s, array))
    (sum_reads_congr array _ _ acc 0
      (fun i hi => hagree i (lt_of_lt_of_le hi hacc)))

/-- Witness for C7 with `elements = 5`, `count = 4`, `acc = 2` and two
different initial buffer states. -/
theorem random_indices_deterministic_witness :
    random_no_prefetch (fun i => i) (generate_random_indices 5 4 (fun _ => 0)) 2
      = random_no_prefetch (fun i => i)
          (generate_random_indices 5 4 (fun _ => 99)) 2 :=
  (random_indices_deterministic 5 4 2 (fun _ => 0) (fun _ => 99) (fun i => i)
    (by decide)).2

/-! ## The two-phase ready/start rendezvous (false_sharing.c `run_test` /
`worker_thread`, and the identical driver pattern of dcache_contention.c,
latency_hiding.c, combined_test.c, shared_cache.c, icache_contention.c).

Interleaving model: each worker binds its CPU and atomically increments the
shared ready counter (`__atomic_fetch_add`), then spins until the start
flag is nonzero and runs its timed workload; the driver polls
`while (ready < N) usleep(100);`, then sets `start = 1` once, and finally
joins all workers.  Binding and the increment are folded into one step
(`workerReady`) since the code performs them back to back with no
observable state in between. -/

/-- Phase of one worker thread. -/
inductive WPhase where
  | binding
  | spinning
  | running
  | done
deriving DecidableEq, Repr

/-- Phase of the driver thread. -/
inductive DPhase where
  | polling
  | released
  | joined
deriving DecidableEq, Repr

/-- Shared state of one experiment run with `N` workers: the per-worker
phases, the ready counter, the start flag, and the driver phase. -/
structure Cfg (N : Nat) where
  wphase : Fin N → WPhase
  ready : Nat
  start : Bool
  dphase : DPhase

/-- Initial state: `volatile int ready = 0; volatile int start = 0;`,
all workers created and about to bind, driver polling. -/
def initCfg (N : Nat) : Cfg N :=
  ⟨fun _ => WPhase.binding, 0, false, DPhase.polling⟩

/-- One interleaved step of a worker or the driver. -/
inductive Step {N : Nat} : Cfg N → Cfg N → Prop where
  | workerReady (s : Cfg N) (i : Fin N)
      (h : s.wphase i = WPhase.binding) :
      Step s { s with wphase := Function.update s.wphase i WPhase.spinning,
                      ready := s.ready + 1 }
  | workerObserve (s : Cfg N) (i : Fin N)
      (h : s.wphase i = WPhase.spinning) (hs : s.start = true) :
      Step s { s with wphase := Function.update s.wphase i WPhase.running }
  | workerFinish (s : Cfg N) (i : Fin N)
      (h : s.wphase i = WPhase.running) :
      Step s { s with wphase := Function.update s.wphase i WPhase.done }
  | driverRelease (s : Cfg N)
      (hd : s.dphase = DPhase.polling) (hr : N ≤ s.ready) :
      Step s { s with start := true, dphase := DPhase.released }
  | driverJoin (s : Cfg N)
      (hd : s.dphase = DPhase.released)
      (hw : ∀ i, s.wphase i = WPhase.done) :
      Step s { s with dphase := DPhase.joined }

/-- States reachable in an experiment run. -/
inductive Reach (N : Nat) : Cfg N → Prop where
  | init : Reach N (initCfg N)
  | step {s s' : Cfg N} : Reach N s → Step s s' → Reach N s'

/-- The number of workers that have passed their ready increment. -/
def readyCount {N : Nat} (s : Cfg N) : Nat :=
  (Finset.univ.filter (fun i => s.wphase i ≠ WPhase.binding)).card

theorem readyCount_le_card {N : Nat} (s : Cfg N) : readyCount s ≤ N := by
  have h := Finset.card_filter_le (Finset.univ : Finset (Fin N))
    (fun i => s.wphase i ≠ WPhase.binding)
  simpa using h

theorem card_nonbinding_update_from_binding {N : Nat} (f : Fin N → WPhase)
    (i : Fin N) (v : WPhase) (hf : f i = WPhase.binding)
    (hv : v ≠ WPhase.binding) :
    (Finset.univ.filter
      (fun j => Function.update f i v j ≠ WPhase.binding)).card
      = (Finset.univ.filter (fun j => f j ≠ WPhase.binding)).card + 1 := by
  have hset : Finset.univ.filter
      (fun j => Function.update f i v j ≠ WPhase.binding)
      = insert i (Finset.univ.filter (fun j => f j ≠ WPhase.binding)) := by
    ext j
    by_cases hj : j = i
    · subst hj
      simp [Function.update_same, hv]
    · simp [Function.update_noteq hj, hj]
  rw [hset]
  exact Finset.card_insert_of_not_mem (by simp [hf])

theorem card_nonbinding_update_stay {N : Nat} (f : Fin N → WPhase)
    (i : Fin N) (v : WPhase) (hf : f i ≠ WPhase.binding)
    (hv : v ≠ WPhase.binding) :
    (Finset.univ.filter
      (fun j => Function.update f i v j ≠ WPhase.binding)).card
      = (Finset.univ.filter (fun j => f j ≠ WPhase.binding)).card := by
  have hset : Finset.univ.filter
      (fun j => Function.update f i v j ≠ WPhase.binding)
      = Finset.univ.filter (fun j => f j ≠ WPhase.binding) := by
    ext j
    by_cases hj : j = i
    · subst hj
      simp [Function.update_same, hv, hf]
    · simp [Function.update_noteq hj]
  rw [hset]

theorem readyCount_full {N : Nat} (s : Cfg N) (h : readyCount s = N)
    (i : Fin N) : s.wphase i ≠ WPhase.binding := by
  have huniv : Finset.univ.filter (fun j => s.wphase j ≠ WPhase.binding)
      = Finset.univ :=
    Finset.eq_univ_of_card _ (by simpa using h)
  have hi : i ∈ Finset.univ.filter (fun j => s.wphase j ≠ WPhase.binding) := by
    rw [huniv]
    exact Finset.mem_univ i
  exact (Finset.mem_filter.mp hi).2

/-- The inductive invariant of the rendezvous. -/
def BarrierInv {N : Nat} (s : Cfg N) : Prop :=
  s.ready = readyCount s ∧
  (s.start = true ↔ s.dphase ≠ DPhase.polling) ∧
  (s.dphase ≠ DPhase.polling → s.ready = N) ∧
  (∀ i, s.wphase i = WPhase.running ∨ s.wphase i = WPhase.done →
    s.start = true) ∧
  (s.dphase = DPhase.joined → ∀ i, s.wphase i = WPhase.done)

theorem reach_inv {N : Nat} {s : Cfg N} (h : Reach N s) : BarrierInv s := by
  induction h with
  | init =>
    refine ⟨by simp [readyCount, initCfg], by simp [initCfg], ?_, ?_, ?_⟩
    · intro hnp
      exact absurd rfl hnp
    · intro i hi
      rcases hi with h' | h' <;> exact absurd h' (by simp [initCfg])
    · intro hj
      simp [initCfg] at hj
  | @step s s2 _ hst ih =>
    obtain ⟨ih1, ih2, ih3, ih4, ih5⟩ := ih
    cases hst with
    | workerReady i h =>
      refine ⟨?_, ih2, ?_, ?_, ?_⟩
      · have hc := card_nonbinding_update_from_binding s.wphase i
          WPhase.spinning h (by decide)
        dsimp only [readyCount] at ih1 ⊢
        omega
      · intro hnp
        have hN : s.ready = N := ih3 hnp
        have hfull : readyCount s = N := by omega
        exact absurd h (readyCount_full s hfull i)
      · intro i' hi'
        dsimp only at hi'
        by_cases hii : i' = i
        · subst hii
          rw [Function.update_same] at hi'
          rcases hi' with h' | h' <;> simp at h'
        · rw [Function.update_noteq hii] at hi'
          exact ih4 i' hi'
      · intro hj i'
        exact absurd (ih5 hj i) (by rw [h]; decide)
    | workerObserve i h hs =>
      refine ⟨?_, ih2, ih3, ?_, ?_⟩
      · have hc := card_nonbinding_update_stay s.wphase i
          WPhase.running (by rw [h]; decide) (by decide)
        dsimp only [readyCount] at ih1 ⊢
        omega
      · intro i' _
        exact hs
      · intro hj i'
        exact absurd (ih5 hj i) (by rw [h]; decide)
    | workerFinish i h =>
      refine ⟨?_, ih2, ih3, ?_, ?_⟩
      · have hc := card_nonbinding_update_stay s.wphase i
          WPhase.done (by rw [h]; decide) (by decide)
        dsimp only [readyCount] at ih1 ⊢
        omega
      · intro i' _
        exact ih4 i (Or.inl h)
      · intro hj i'
        exact absurd (ih5 hj i) (by rw [h]; decide)
    | driverRelease hd hr =>
      refine ⟨ih1, by dsimp only; decide, ?_, ?_, ?_⟩
      · intro _
        have hle : readyCount s ≤ N := readyCount_le_card s
        dsimp only
        omega
      · intro i' _
        rfl
      · intro hj
        simp at hj
    | driverJoin hd hw =>
      refine ⟨ih1, ?_, ?_, ih4, ?_⟩
      · dsimp only
        constructor
        · intro _
          decide
        · intro _
          exact ih2.mpr (by rw [hd]; decide)
      · intro _
        dsimp only
        exact ih3 (by rw [hd]; decide)
      · intro _
        exact hw

/-- C1: in every reachable state of a dual-worker experiment run: after the
driver has joined, the ready counter equals exactly `N` and the start flag
equals exactly 1; the ready counter always counts exactly the workers that
have performed their (single) increment; the only step that raises the
start flag is the driver release, enabled only once (from `polling`) and
only when the ready counter equals `N`; the flag never falls back; the only
step that changes the ready counter is a single worker's
binding-to-spinning increment; and a worker runs its timed region only
after the start flag is set. -/
theorem barrier_protocol_invariants {N : Nat} (s s' : Cfg N)
    (hs : Reach N s) :
    (s.dphase = DPhase.joined → s.ready = N ∧ s.start = true) ∧
    s.ready = readyCount s ∧
    (Step s s' → s.start = false → s'.start = true →
      s.ready = N ∧ s.dphase = DPhase.polling ∧
        s'.dphase = DPhase.released) ∧
    (Step s s' → s.start = true → s'.start = true) ∧
    (Step s s' → s'.ready ≠ s.ready →
      s'.ready = s.ready + 1 ∧
      ∃ i : Fin N, s.wphase i = WPhase.binding ∧
        s'.wphase i = WPhase.spinning ∧
        ∀ j : Fin N, j ≠ i → s'.wphase j = s.wphase j) ∧
    (∀ i : Fin N, s.wphase i = WPhase.running → s.start = true) := by
  obtain ⟨i1, i2, i3, i4, i5⟩ := reach_inv hs
  refine ⟨?_, i1, ?_, ?_, ?_, ?_⟩
  · intro hj
    refine ⟨i3 (by rw [hj]; decide), i2.mpr (by rw [hj]; decide)⟩
  · intro hst h0 h1
    cases hst with
    | workerReady i h => exact absurd h1 (by simp [h0])
    | workerObserve i h hs0 => exact absurd hs0 (by simp [h0])
    | workerFinish i h => exact absurd h1 (by simp [h0])
    | driverRelease hd hr =>
      have hle : readyCount s ≤ N := readyCount_le_card s
      exact ⟨by omega, hd, rfl⟩
    | driverJoin hd hw => exact absurd h1 (by simp [h0])
  · intro hst h1
    cases hst with
    | workerReady i h => exact h1
    | workerObserve i h hs0 => exact h1
    | workerFinish i h => exact h1
    | driverRelease hd hr => rfl
    | driverJoin hd hw => exact h1
  · intro hst hne
    cases hst with
    | workerReady i h =>
      refine ⟨rfl, i, h, Function.update_same i WPhase.spinning s.wphase, ?_⟩
      intro j hj
      exact Function.update_noteq hj WPhase.spinning s.wphase
    | workerObserve i h hs0 => exact absurd rfl hne
    | workerFinish i h => exact absurd rfl hne
    | driverRelease hd hr => exact absurd rfl hne
    | driverJoin hd hw => exact absurd rfl hne
  · intro i hi
    exact i4 i (Or.inl hi)

/-- Concrete dual-worker run, step 0: fresh state, `N = 2`. -/
def wcfg0 : Cfg 2 := initCfg 2

/-- Worker 0 binds and increments ready. -/
def wcfg1 : Cfg 2 :=
  { wcfg0 with wphase := Function.update wcfg0.wphase 0 WPhase.spinning,
               ready := wcfg0.ready + 1 }

/-- Worker 1 binds and increments ready. -/
def wcfg2 : Cfg 2 :=
  { wcfg1 with wphase := Function.update wcfg1.wphase 1 WPhase.spinning,
               ready := wcfg1.ready + 1 }

/-- The driver observes `ready = 2` and sets the start flag. -/
def wcfg3 : Cfg 2 := { wcfg2 with start := true, dphase := DPhase.released }

/-- Worker 0 observes the flag. -/
def wcfg4 : Cfg 2 :=
  { wcfg3 with wphase := Function.update wcfg3.wphase 0 WPhase.running }

/-- Worker 0 finishes its timed region. -/
def wcfg5 : Cfg 2 :=
  { wcfg4 with wphase := Function.update wcfg4.wphase 0 WPhase.done }

/-- Worker 1 observes the flag. -/
def wcfg6 : Cfg 2 :=
  { wcfg5 with wphase := Function.update wcfg5.wphase 1 WPhase.running }

/-- Worker 1 finishes. -/
def wcfg7 : Cfg 2 :=
  { wcfg6 with wphase := Function.update wcfg6.wphase 1 WPhase.done }

/-- The driver joins both workers. -/
def wcfg8 : Cfg 2 := { wcfg7 with dphase := DPhase.joined }

theorem wcfg8_reach : Reach 2 wcfg8 :=
  Reach.step
    (Reach.step
      (Reach.step
        (Reach.step
          (Reach.step
            (Reach.step
              (Reach.step
                (Reach.step Reach.init (Step.workerReady wcfg0 0 rfl))
                (Step.workerReady wcfg1 1 (by decide)))
              (Step.driverRelease wcfg2 rfl (by decide)))
            (Step.workerObserve wcfg3 0 (by decide) rfl))
          (Step.workerFinish wcfg4 0 (by decide)))
        (Step.workerObserve wcfg5 1 (by decide) rfl))
      (Step.workerFinish wcfg6 1 (by decide)))
    (Step.driverJoin wcfg7 rfl (by decide))

/-- Witness for C1: in the concrete joined dual-worker run, the ready
counter equals 2 and the start flag is set. -/
theorem barrier_protocol_invariants_witness :
    wcfg8.ready = 2 ∧ wcfg8.start = true :=
  (barrier_protocol_invariants wcfg8 wcfg8 wcfg8_reach).1 rfl

/-! ## Matrix multiply: blocked vs naive (matrix_prefetch.c)

Matrices are functions `Nat → Nat → α` over an ARBITRARY carrier `α` with
arbitrary operations `add`, `mul` and constant `zero`: no algebraic law is
assumed, so the equality below states that both routines perform the same
multiply-accumulate operations in the same order on each output element —
it therefore also holds for IEEE doubles. -/

/-- `N` of matrix_prefetch.c. -/
def MATRIX_N : Nat := 1024

/-- `BLOCK_SIZE` of matrix_prefetch.c. -/
def BLOCK_SIZE : Nat := 64

/-- The store `C[i][j] = v` on a matrix modelled as a function. -/
def mupd {α : Type} (C : Nat → Nat → α) (i j : Nat) (v : α) :
    Nat → Nat → α :=
  fun a b => if a = i then (if b = j then v else C a b) else C a b

/-- Index list of a C loop `for (x = s; x < s + bs && x < n; x++)`. -/
def blockIdx (s bs n : Nat) : List Nat := List.range' s (min (s + bs) n - s)

/-- Start values of a C loop `for (xx = 0; xx < n; xx += bs)`. -/
def blockStarts (n bs : Nat) : List Nat :=
  (List.range ((n + bs - 1) / bs)).map (fun t => t * bs)

/-- The inner accumulation loop `for k in ks: sum += A[i][k] * B[k][j]`
starting from `x`. -/
def dotFrom {α : Type} (add mul : α → α → α) (A B : Nat → Nat → α)
    (x : α) (i j : Nat) (ks : List Nat) : α :=
  ks.foldl (fun sum k => add sum (mul (A i k) (B k j))) x

/-- `matmul_naive` (matrix_prefetch.c): the i-j-k triple loop; each
`C[i][j]` is overwritten with the k-ascending accumulation started from the
literal `0`. -/
def matmul_naive {α : Type} (zero : α) (add mul : α → α → α)
    (A B : Nat → Nat → α) (n : Nat) (C : Nat → Nat → α) : Nat → Nat → α :=
  (List.range n).foldl (fun C i =>
    (List.range n).foldl (fun C j =>
      mupd C i j (dotFrom add mul A B zero i j (List.range n))) C) C

/-- `matmul_blocked` (matrix_prefetch.c): the ii-jj-kk block loops with the
i-j-k loops inside; each block continues the accumulation of `C[i][j]` from
its current value. -/
def matmul_blocked {α : Type} (add mul : α → α → α)
    (A B : Nat → Nat → α) (n bs : Nat) (C : Nat → Nat → α) :
    Nat → Nat → α :=
  (blockStarts n bs).foldl (fun C ii =>
    (blockStarts n bs).foldl (fun C jj =>
      (blockStarts n bs).foldl (fun C kk =>
        (blockIdx ii bs n).foldl (fun C i =>
          (blockIdx jj bs n).foldl (fun C j =>
            mupd C i j
              (dotFrom add mul A B (C i j) i j (blockIdx kk bs n))) C) C)
        C) C) C

/-- Effect of one rectangular region of multiply-accumulate updates: every
cell with row in `iIdx` and column in `jIdx` continues its accumulation
over the k-list `ks`. -/
def regionActK {α : Type} (add mul : α → α → α) (A B : Nat → Nat → α)
    (iIdx jIdx ks : List Nat) (C : Nat → Nat → α) : Nat → Nat → α :=
  fun a b =>
    if a ∈ iIdx ∧ b ∈ jIdx then dotFrom add mul A B (C a b) a b ks
    else C a b

theorem dotFrom_append {α : Type} (add mul : α → α → α)
    (A B : Nat → Nat → α) (x : α) (i j : Nat) (ks ks' : List Nat) :
    dotFrom add mul A B x i j (ks ++ ks')
      = dotFrom add mul A B (dotFrom add mul A B x i j ks) i j ks' :=
  List.foldl_append _ _ _ _

theorem jfold_eq {α : Type} (g : α → Nat → Nat → α) (i : Nat) :
    ∀ js : List Nat, js.Nodup → ∀ (C : Nat → Nat → α) (a b : Nat),
      (js.foldl (fun C j => mupd C i j (g (C i j) i j)) C) a b
        = if a = i ∧ b ∈ js then g (C a b) a b else C a b := by
  intro js
  induction js with
  | nil =>
    intro _ C a b
    simp
  | cons j js ih =>
    intro hnd C a b
    obtain ⟨hj, hnd'⟩ := List.nodup_cons.mp hnd
    rw [List.foldl_cons, ih hnd']
    by_cases ha : a = i
    · subst ha
      by_cases hbj : b = j
      · subst hbj
        simp [hj, mupd]
      · by_cases hbm : b ∈ js
        · simp [hbm, hbj, mupd]
        · simp [hbm, hbj, mupd]
    · simp [ha, mupd]

theorem ifold_eq {α : Type} (g : α → Nat → Nat → α) (js : List Nat)
    (hjs : js.Nodup) :
    ∀ is : List Nat, is.Nodup → ∀ (C : Nat → Nat → α) (a b : Nat),
      (is.foldl (fun C i =>
          js.foldl (fun C j => mupd C i j (g (C i j) i j)) C) C) a b
        = if a ∈ is ∧ b ∈ js then g (C a b) a b else C a b := by
  intro is
  induction is with
  | nil =>
    intro _ C a b
    simp
  | cons i is ih =>
    intro hnd C a b
    obtain ⟨hi, hnd'⟩ := List.nodup_cons.mp hnd
    rw [List.foldl_cons, ih hnd']
    have h1 := jfold_eq g i js hjs C a b
    rw [h1]
    by_cases ha : a = i
    · simp [ha, hi]
    · simp [ha]

theorem blockIdx_nodup (s bs n : Nat) : (blockIdx s bs n).Nodup :=
  List.nodup_range' _ _

theorem blockIdx_eq (u bs n : Nat) (h : u * bs + bs ≤ n) :
    blockIdx (u * bs) bs n = List.range' (u * bs) bs := by
  unfold blockIdx
  rw [Nat.min_eq_left h, Nat.add_sub_cancel_left]

theorem kkfold_regionAct {α : Type} (add mul : α → α → α)
    (A B : Nat → Nat → α) (iIdx jIdx : List Nat) (F : Nat → List Nat) :
    ∀ (kks : List Nat) (C : Nat → Nat → α),
      kks.foldl (fun C kk => regionActK add mul A B iIdx jIdx (F kk) C) C
        = regionActK add mul A B iIdx jIdx (kks.map F).flatten C := by
  intro kks
  induction kks with
  | nil =>
    intro C
    funext a b
    simp [regionActK, dotFrom]
  | cons kk kks ih =>
    intro C
    rw [List.foldl_cons, ih]
    funext a b
    by_cases hab : a ∈ iIdx ∧ b ∈ jIdx
    · simp [regionActK, hab, dotFrom_append]
    · simp [regionActK, hab]

theorem colfold_regionAct {α : Type} (add mul : α → α → α)
    (A B : Nat → Nat → α) (iIdx ks : List Nat) (bs n : Nat) :
    ∀ t : Nat, t * bs ≤ n → ∀ C : Nat → Nat → α,
      ((List.range t).map (fun u => u * bs)).foldl
          (fun C jj => regionActK add mul A B iIdx (blockIdx jj bs n) ks C) C
        = regionActK add mul A B iIdx (List.range (t * bs)) ks C := by
  intro t
  induction t with
  | zero =>
    intro _ C
    funext a b
    simp [regionActK, Nat.zero_mul]
  | succ t ih =>
    intro ht C
    have htb : t * bs + bs ≤ n := by
      rw [Nat.succ_mul] at ht
      exact ht
    have ht' : t * bs ≤ n := le_trans (Nat.le_add_right _ _) htb
    rw [List.range_succ, List.map_append, List.foldl_append, ih ht']
    simp only [List.map_cons, List.map_nil, List.foldl_cons, List.foldl_nil]
    rw [blockIdx_eq t bs n htb]
    funext a b
    by_cases hai : a ∈ iIdx
    · simp only [regionActK, List.mem_range'_1, List.mem_range, hai,
        true_and, Nat.succ_mul]
      split_ifs <;> first | rfl | omega
    · simp [regionActK, hai]

theorem rowfold_regionAct {α : Type} (add mul : α → α → α)
    (A B : Nat → Nat → α) (jIdx ks : List Nat) (bs n : Nat) :
    ∀ t : Nat, t * bs ≤ n → ∀ C : Nat → Nat → α,
      ((List.range t).map (fun u => u * bs)).foldl
          (fun C ii => regionActK add mul A B (blockIdx ii bs n) jIdx ks C) C
        = regionActK add mul A B (List.range (t * bs)) jIdx ks C := by
  intro t
  induction t with
  | zero =>
    intro _ C
    funext a b
    simp [regionActK, Nat.zero_mul]
  | succ t ih =>
    intro ht C
    have htb : t * bs + bs ≤ n := by
      rw [Nat.succ_mul] at ht
      exact ht
    have ht' : t * bs ≤ n := le_trans (Nat.le_add_right _ _) htb
    rw [List.range_succ, List.map_append, List.foldl_append, ih ht']
    simp only [List.map_cons, List.map_nil, List.foldl_cons, List.foldl_nil]
    rw [blockIdx_eq t bs n htb]
    funext a b
    by_cases hbj : b ∈ jIdx
    · simp only [regionActK, List.mem_range'_1, List.mem_range, hbj,
        and_true, Nat.succ_mul]
      split_ifs <;> first | rfl | omega
    · simp [regionActK, hbj]

theorem range'_blocks_flatten (bs : Nat) :
    ∀ nb : Nat,
      ((List.range nb).map (fun u => List.range' (u * bs) bs)).flatten
        = List.range (nb * bs) := by
  intro nb
  induction nb with
  | zero => simp
  | succ t ih =>
    rw [List.range_succ, List.map_append, List.flatten_append, ih]
    simp only [List.map_cons, List.map_nil, List.flatten_cons,
      List.flatten_nil, List.append_nil]
    rw [List.range_eq_range', List.range_eq_range', Nat.succ_mul]
    have h := List.range'_append_1 0 (t * bs) bs
    rw [Nat.zero_add] at h
    rw [h, Nat.add_comm bs (t * bs)]

theorem blockStarts_eq (nb bs : Nat) (hbs : 0 < bs) :
    blockStarts (nb * bs) bs = (List.range nb).map (fun u => u * bs) := by
  unfold blockStarts
  have h1 : nb * bs + bs - 1 = bs * nb + (bs - 1) := by
    rw [Nat.mul_comm nb bs]
    omega
  rw [h1, Nat.mul_add_div hbs, Nat.div_eq_of_lt (by omega), Nat.add_zero]

theorem blockStarts_flatten (nb bs n : Nat) (hbs : 0 < bs)
    (hn : n = nb * bs) :
    ((blockStarts n bs).map (fun kk => blockIdx kk bs n)).flatten
      = List.range n := by
  subst hn
  rw [blockStarts_eq nb bs hbs, List.map_map]
  have hmap : (List.range nb).map
        ((fun kk => blockIdx kk bs (nb * bs)) ∘ (fun u => u * bs))
      = (List.range nb).map (fun u => List.range' (u * bs) bs) := by
    apply List.map_congr_left
    intro u hu
    have hu' : u < nb := List.mem_range.mp hu
    show blockIdx (u * bs) bs (nb * bs) = _
    refine blockIdx_eq u bs (nb * bs) ?_
    calc u * bs + bs = (u + 1) * bs := by rw [Nat.succ_mul]
      _ ≤ nb * bs := Nat.mul_le_mul hu' (Nat.le_refl bs)
  rw [hmap, range'_blocks_flatten]

theorem matmul_blocked_eq_naive_general {α : Type} (zero : α)
    (add mul : α → α → α) (A B : Nat → Nat → α) (n bs nb : Nat)
    (hbs : 0 < bs) (hn : n = nb * bs) :
    matmul_blocked add mul A B n bs (fun _ _ => zero)
      = matmul_naive zero add mul A B n (fun _ _ => zero) := by
  subst hn
  have h1 : ∀ (ii jj kk : Nat) (C : Nat → Nat → α),
      (blockIdx ii bs (nb * bs)).foldl (fun C i =>
        (blockIdx jj bs (nb * bs)).foldl (fun C j =>
          mupd C i j
            (dotFrom add mul A B (C i j) i j (blockIdx kk bs (nb * bs)))) C) C
        = regionActK add mul A B (blockIdx ii bs (nb * bs))
            (blockIdx jj bs (nb * bs)) (blockIdx kk bs (nb * bs)) C := by
    intro ii jj kk C
    funext a b
    exact ifold_eq
      (fun x p q => dotFrom add mul A B x p q (blockIdx kk bs (nb * bs)))
      (blockIdx jj bs (nb * bs)) (blockIdx_nodup _ _ _)
      (blockIdx ii bs (nb * bs)) (blockIdx_nodup _ _ _) C a b
  have h2 : ∀ (ii jj : Nat) (C : Nat → Nat → α),
      (blockStarts (nb * bs) bs).foldl (fun C kk =>
        (blockIdx ii bs (nb * bs)).foldl (fun C i =>
          (blockIdx jj bs (nb * bs)).foldl (fun C j =>
            mupd C i j
              (dotFrom add mul A B (C i j) i j (blockIdx kk bs (nb * bs))))
            C) C) C
        = regionActK add mul A B (blockIdx ii bs (nb * bs))
            (blockIdx jj bs (nb * bs)) (List.range (nb * bs)) C := by
    intro ii jj C
    calc (blockStarts (nb * bs) bs).foldl (fun C kk =>
          (blockIdx ii bs (nb * bs)).foldl (fun C i =>
            (blockIdx jj bs (nb * bs)).foldl (fun C j =>
              mupd C i j
                (dotFrom add mul A B (C i j) i j (blockIdx kk bs (nb * bs))))
              C) C) C
        = (blockStarts (nb * bs) bs).foldl (fun C kk =>
            regionActK add mul A B (blockIdx ii bs (nb * bs))
              (blockIdx jj bs (nb * bs)) (blockIdx kk bs (nb * bs)) C) C :=
          List.foldl_ext _ _ C (fun C kk _ => h1 ii jj kk C)
      _ = regionActK add mul A B (blockIdx ii bs (nb * bs))
            (blockIdx jj bs (nb * bs))
            ((blockStarts (nb * bs) bs).map
              (fun kk => blockIdx kk bs (nb * bs))).flatten C :=
          kkfold_regionAct add mul A B _ _ _ (blockStarts (nb * bs) bs) C
      _ = regionActK add mul A B (blockIdx ii bs (nb * bs))
            (blockIdx jj bs (nb * bs)) (List.range (nb * bs)) C := by
          rw [blockStarts_flatten nb bs (nb * bs) hbs rfl]
  have h3 : ∀ (ii : Nat) (C : Nat → Nat → α),
      (blockStarts (nb * bs) bs).foldl (fun C jj =>
        (blockStarts (nb * bs) bs).foldl (fun C kk =>
          (blockIdx ii bs (nb * bs)).foldl (fun C i =>
            (blockIdx jj bs (nb * bs)).foldl (fun C j =>
              mupd C i j
                (dotFrom add mul A B (C i j) i j (blockIdx kk bs (nb * bs))))
              C) C) C) C
        = regionActK add mul A B (blockIdx ii bs (nb * bs))
            (List.range (nb * bs)) (List.range (nb * bs)) C := by
    intro ii C
    calc (blockStarts (nb * bs) bs).foldl (fun C jj =>
          (blockStarts (nb * bs) bs).foldl (fun C kk =>
            (blockIdx ii bs (nb * bs)).foldl (fun C i =>
              (blockIdx jj bs (nb * bs)).foldl (fun C j =>
                mupd C i j
                  (dotFrom add mul A B (C i j) i j
                    (blockIdx kk bs (nb * bs)))) C) C) C) C
        = (blockStarts (nb * bs) bs).foldl (fun C jj =>
            regionActK add mul A B (blockIdx ii bs (nb * bs))
              (blockIdx jj bs (nb * bs)) (List.range (nb * bs)) C) C :=
          List.foldl_ext _ _ C (fun C jj _ => h2 ii jj C)
      _ = regionActK add mul A B (blockIdx ii bs (nb * bs))
            (List.range (nb * bs)) (List.range (nb * bs)) C := by
          rw [blockStarts_eq nb bs hbs]
          exact colfold_regionAct add mul A B (blockIdx ii bs (nb * bs))
            (List.range (nb * bs)) bs (nb * bs) nb (Nat.le_refl _) C
  have h4 : ∀ C : Nat → Nat → α,
      matmul_blocked add mul A B (nb * bs) bs C
        = regionActK add mul A B (List.range (nb * bs))
            (List.range (nb * bs)) (List.range (nb * bs)) C := by
    intro C
    calc matmul_blocked add mul A B (nb * bs) bs C
        = (blockStarts (nb * bs) bs).foldl (fun C ii =>
            regionActK add mul A B (blockIdx ii bs (nb * bs))
              (List.range (nb * bs)) (List.range (nb * bs)) C) C :=
          List.foldl_ext _ _ C (fun C ii _ => h3 ii C)
      _ = regionActK add mul A B (List.range (nb * bs))
            (List.range (nb * bs)) (List.range (nb * bs)) C := by
          rw [blockStarts_eq nb bs hbs]
          exact rowfold_regionAct add mul A B (List.range (nb * bs))
            (List.range (nb * bs)) bs (nb * bs) nb (Nat.le_refl _) C
  have h5 : ∀ C : Nat → Nat → α,
      matmul_naive zero add mul A B (nb * bs) C
        = fun a b =>
            if a ∈ List.range (nb * bs) ∧ b ∈ List.range (nb * bs) then
              dotFrom add mul A B zero a b (List.range (nb * bs))
            else C a b := by
    intro C
    funext a b
    exact ifold_eq
      (fun x p q => dotFrom add mul A B zero p q (List.range (nb * bs)))
      (List.range (nb * bs)) (List.nodup_range _)
      (List.range (nb * bs)) (List.nodup_range _) C a b
  rw [h4, h5]
  funext a b
  by_cases hab : a ∈ List.range (nb * bs) ∧ b ∈ List.range (nb * bs)
  · simp [regionActK, hab]
  · simp [regionActK, hab]

/-- C10: starting from the zeroed output matrix prepared by `run_test`'s
`zero_matrix`, `matmul_blocked` computes exactly the same result matrix as
`matmul_naive`: for each output element both perform the same
multiply-accumulate operations in the same ascending-k order (the equality
is over an arbitrary carrier with arbitrary `add`/`mul`, so it holds in
particular for IEEE doubles). -/
theorem matmul_blocked_eq_matmul_naive {α : Type} (zero : α)
    (add mul : α → α → α) (A B : Nat → Nat → α) :
    matmul_blocked add mul A B MATRIX_N BLOCK_SIZE (fun _ _ => zero)
      = matmul_naive zero add mul A B MATRIX_N (fun _ _ => zero) :=
  matmul_blocked_eq_naive_general zero add mul A B MATRIX_N BLOCK_SIZE 16
    (by decide) (by decide)
